import Mathlib

/-!
Shallow embedding of the `image_compressor` crate
(`src/lib.rs`, `src/compressor.rs`, `src/crawler.rs`, `src/dir.rs`)
and proofs about its specification claims.

Conventions of the embedding:
* `f32` values that only ever flow through order comparisons against
  exactly representable constants (the `Factor` guard) are modelled as `ℚ`.
* `u32`/`u64`/`usize` sizes are modelled as `ℕ` (no arithmetic overflow is
  reachable in the modelled code paths).
* The filesystem is modelled explicitly: directory trees as an inductive
  `FsTree` for the crawler and the recursive-delete function, and a flat
  association list of `(path, content)` pairs for the single-file compressor.
* The image codec (`image` crate + `mozjpeg`) is an external collaborator:
  it is a parameter (`Codec`) of the compressor embedding, exactly as the
  spec treats it ("ImageCodec capability").
-/

namespace ImageCompressor

/-! ## Factor (src/compressor.rs lines 77-118) -/

/-- The `Factor` struct of `src/compressor.rs`: quality and resize ratio.
Rust stores two `f32`s; the guard in `Factor::new` only compares them to
the exact constants 0, 100 and 1, so `ℚ` is a faithful model. -/
structure Factor where
  quality : ℚ
  size_ratio : ℚ

namespace Factor

/-- `Factor::new` (src/compressor.rs lines 98-107): returns the pair when
`quality > 0 && quality <= 100 && size_ratio > 0 && size_ratio <= 1`,
otherwise panics ("Wrong Factor argument!"), modelled as `none`. -/
def new (quality size_ratio : ℚ) : Option Factor :=
  if (0 < quality ∧ quality ≤ 100) ∧ (0 < size_ratio ∧ size_ratio ≤ 1) then
    some ⟨quality, size_ratio⟩
  else
    none

end Factor

/-! ## default_cal_func and FolderCompressor construction (src/lib.rs) -/

/-- `default_cal_func` (src/lib.rs lines 101-110): picks the factor from the
file size alone.  Every branch calls `Factor::new` with constants inside the
accepted ranges, so the Rust panic is unreachable and the result is the plain
pair. -/
def default_cal_func (_width _height : ℕ) (file_size : ℕ) : Factor :=
  if file_size > 5000000 then ⟨60, 7/10⟩
  else if file_size > 1000000 then ⟨65, 3/4⟩
  else if file_size > 500000 then ⟨70, 4/5⟩
  else if file_size > 300000 then ⟨75, 17/20⟩
  else if file_size > 100000 then ⟨80, 9/10⟩
  else ⟨85, 1⟩

/-- A path is a list of components (Rust `PathBuf`). -/
abbrev DirPath := List String

/-- The `FolderCompressor` struct (src/lib.rs lines 127-134). The progress
sink (`Option<Sender<String>>`) is modelled by whether one is present. -/
structure FolderCompressor where
  calculate_quality_and_size : ℕ → ℕ → ℕ → Factor
  original_path : DirPath
  destination_path : DirPath
  thread_count : ℕ
  delete_original : Bool
  sender : Option Unit

namespace FolderCompressor

/-- `FolderCompressor::new` (src/lib.rs lines 153-162). -/
def new (origin_path dest_path : DirPath) : FolderCompressor where
  calculate_quality_and_size := default_cal_func
  original_path := origin_path
  destination_path := dest_path
  thread_count := 1
  delete_original := false
  sender := none

end FolderCompressor

/-! ## Directory trees (for src/crawler.rs and src/dir.rs) -/

/-- A directory tree: regular files and directories with named entries. -/
inductive FsTree where
  | file (name : String)
  | dir (name : String) (children : List FsTree)

/-- Leaf name of a tree node. -/
def FsTree.rootName : FsTree → String
  | .file n => n
  | .dir n _ => n

/-- The hidden-entry test used by the crawler (first character of the leaf
name is a dot, src/crawler.rs line 32) and by the recursive delete
(first byte of the file name, src/dir.rs line 52). -/
def hiddenName (s : String) : Bool :=
  match s.data with
  | [] => false
  | c :: _ => c == '.'

/-! ### delete_recursive (src/dir.rs lines 41-71) -/

/-- Errors of the dir module: the not-a-directory error
(io ErrorKind InvalidInput, src/dir.rs line 67) and the
directory-not-empty error (src/dir.rs line 61; the spec calls it
NotEmptyError). -/
inductive DirError where
  | notEmpty
  | invalidInput

mutual

/-- One recursive call of delete_recursive on a directory node
(src/dir.rs lines 42-64): process the children left to right, and remove
the node (remove_dir_all) exactly when no child blocked.  Returns
none when the directory was removed, and the surviving tree otherwise
(children that were removable were already removed by the recursion,
exactly as the Rust code removes them before the parent decides). -/
def delDir (name : String) (cs : List FsTree) : Option FsTree :=
  let r := delChildren cs
  if r.1 then some (.dir name r.2) else none

/-- The child-processing loop of delete_recursive (src/dir.rs lines 44-55):
first component is the is_file_exist flag, second the surviving children. -/
def delChildren : List FsTree → Bool × List FsTree
  | [] => (false, [])
  | .file f :: rest =>
      let r := delChildren rest
      (!hiddenName f || r.1, .file f :: r.2)
  | .dir n cs :: rest =>
      let r := delChildren rest
      match delDir n cs with
      | none => (r.1, r.2)
      | some t => (true, t :: r.2)

end

/-- delete_recursive (src/dir.rs lines 41-71): first component is the
returned Result, second the tree that remains on disk afterward
(none when the root directory itself was removed). -/
def delete_recursive : FsTree → Except DirError Unit × Option FsTree
  | .file f => (.error .invalidInput, some (.file f))
  | .dir n cs =>
      match delDir n cs with
      | none => (.ok (), none)
      | some t => (.error .notEmpty, some t)

mutual

/-- Whether a tree contains a non-hidden regular file anywhere. -/
def hasVisibleFile : FsTree → Bool
  | .file f => !hiddenName f
  | .dir _ cs => hasVisibleFileL cs

/-- hasVisibleFile over a list of children. -/
def hasVisibleFileL : List FsTree → Bool
  | [] => false
  | c :: rest => hasVisibleFile c || hasVisibleFileL rest

end

mutual

/-- Paths of all directory nodes of a tree, the node itself included,
prefixed by p. -/
def dirPaths (p : DirPath) : FsTree → List DirPath
  | .file _ => []
  | .dir n cs => (p ++ [n]) :: dirPathsL (p ++ [n]) cs

/-- dirPaths over a list of children. -/
def dirPathsL (p : DirPath) : List FsTree → List DirPath
  | [] => []
  | c :: rest => dirPaths p c ++ dirPathsL p rest

end

mutual

/-- Paths of the directory nodes whose own subtree contains a non-hidden
file (a subtree without one is removed whole, descendants included). -/
def visibleDirPaths (p : DirPath) : FsTree → List DirPath
  | .file _ => []
  | .dir n cs =>
      if hasVisibleFileL cs then (p ++ [n]) :: visibleDirPathsL (p ++ [n]) cs
      else []

/-- visibleDirPaths over a list of children. -/
def visibleDirPathsL (p : DirPath) : List FsTree → List DirPath
  | [] => []
  | c :: rest => visibleDirPaths p c ++ visibleDirPathsL p rest

end

/-! ### get_file_list (src/crawler.rs lines 19-39) -/

theorem sizeOf_map_sum_lt (cs : List FsTree) : (cs.map sizeOf).sum < sizeOf cs := by
  induction cs with
  | nil => simp
  | cons c rest ih => simp only [List.map_cons, List.sum_cons, List.cons.sizeOf_spec]; omega

theorem sizeOf_children_lt (n : String) (cs : List FsTree) :
    (cs.map sizeOf).sum < sizeOf (FsTree.dir n cs) := by
  have h := sizeOf_map_sum_lt cs
  simp only [FsTree.dir.sizeOf_spec]
  omega

/-- The work-list loop of get_file_list (src/crawler.rs lines 24-36): the
pending entries are (path of the parent, tree node) pairs; a directory entry
appends its children to the end of the work list and is itself never
emitted, a file entry is emitted unless its leaf name starts with a dot. -/
def crawlLoop : List (DirPath × FsTree) → List DirPath
  | [] => []
  | (p, .file n) :: rest =>
      if hiddenName n then crawlLoop rest else (p ++ [n]) :: crawlLoop rest
  | (p, .dir n cs) :: rest =>
      crawlLoop (rest ++ cs.map fun c => (p ++ [n], c))
termination_by l => (l.map fun e => sizeOf e.2).sum
decreasing_by
  · simp only [List.map_cons, List.sum_cons, FsTree.file.sizeOf_spec]; omega
  · simp only [List.map_cons, List.sum_cons, FsTree.file.sizeOf_spec]; omega
  · have h := sizeOf_children_lt n cs
    simp only [List.map_append, List.sum_append, List.map_map, List.map_cons,
      List.sum_cons, Function.comp_def]
    simp only [FsTree.dir.sizeOf_spec] at h ⊢
    have he : (List.map (fun x : FsTree => sizeOf x) cs).sum
        = (List.map sizeOf cs).sum := rfl
    omega

/-- The crawl error: read_dir fails on the root (src/crawler.rs line 21). -/
inductive CrawlError where
  | ioError

/-- get_file_list (src/crawler.rs lines 19-39): seed the work list with the
children of the root and run the loop.  On a non-directory root, read_dir
fails with an io error. -/
def get_file_list : FsTree → Except CrawlError (List DirPath)
  | .file _ => .error .ioError
  | .dir n cs => .ok (crawlLoop (cs.map fun c => ([n], c)))

mutual

/-- Modelled from the spec's words (section 4.1): the non-hidden regular
files reachable by recursive descent, in depth-first order; hidden
directories are still descended into, only the leaf name of a file gates
exclusion.  Used as the specification side of the crawler claim. -/
def specFiles (p : DirPath) : FsTree → List DirPath
  | .file n => if hiddenName n then [] else [p ++ [n]]
  | .dir n cs => specFilesL (p ++ [n]) cs

/-- specFiles over a list of children. -/
def specFilesL (p : DirPath) : List FsTree → List DirPath
  | [] => []
  | c :: rest => specFiles p c ++ specFilesL p rest

end

mutual

/-- Well-formed tree: sibling entries have pairwise distinct names
(true of any real directory tree). -/
def wfTree : FsTree → Bool
  | .file _ => true
  | .dir _ cs => decide ((cs.map FsTree.rootName).Nodup) && wfTreeL cs

/-- wfTree over a list of children. -/
def wfTreeL : List FsTree → Bool
  | [] => true
  | c :: rest => wfTree c && wfTreeL rest

end

/-! ### Characterization of delete_recursive -/

theorem delChildren_spec (cs0 : List FsTree) :
    (delChildren cs0).1 = hasVisibleFileL cs0 ∧
    ∀ p, dirPathsL p (delChildren cs0).2 = visibleDirPathsL p cs0 := by
  refine delChildren.induct
    (fun name cs =>
      (hasVisibleFileL cs = false → delDir name cs = none) ∧
      (hasVisibleFileL cs = true → ∃ kept, delDir name cs = some (.dir name kept) ∧
        ∀ p, dirPathsL p kept = visibleDirPathsL p cs))
    (fun cs => (delChildren cs).1 = hasVisibleFileL cs ∧
      ∀ p, dirPathsL p (delChildren cs).2 = visibleDirPathsL p cs)
    ?_ ?_ ?_ ?_ ?_ ?_ cs0
  · intro name cs r hr ih
    have h1 : hasVisibleFileL cs = true := by rw [← ih.1]; exact hr
    constructor
    · intro hc; rw [h1] at hc; exact absurd hc (by simp)
    · intro _
      refine ⟨(delChildren cs).2, ?_, ih.2⟩
      simp only [delDir]
      rw [if_pos hr]
  · intro name cs r hr ih
    have h0 : (delChildren cs).1 = false := by
      cases hb : (delChildren cs).1
      · rfl
      · exact absurd hb hr
    have h1 : hasVisibleFileL cs = false := by rw [← ih.1]; exact h0
    constructor
    · intro _
      simp only [delDir]
      rw [if_neg (by rw [h0]; exact Bool.false_ne_true)]
    · intro hc; rw [h1] at hc; exact absurd hc (by simp)
  · constructor
    · simp [delChildren, hasVisibleFileL]
    · intro p; simp [delChildren, dirPathsL, visibleDirPathsL]
  · intro f rest ih
    constructor
    · simp only [delChildren, hasVisibleFileL, hasVisibleFile, ih.1]
    · intro p
      simp only [delChildren, dirPathsL, dirPaths, visibleDirPathsL, visibleDirPaths,
        ih.2 p, List.nil_append]
  · intro n cs rest hnone ihr ihd
    have hvis : hasVisibleFileL cs = false := by
      cases hb : hasVisibleFileL cs
      · rfl
      · obtain ⟨kept, hk, _⟩ := ihd.2 hb
        rw [hnone] at hk
        exact Option.noConfusion hk
    constructor
    · simp only [delChildren, hnone, hasVisibleFileL, hasVisibleFile, hvis,
        Bool.false_or, ihr.1]
    · intro p
      simp only [delChildren, hnone, visibleDirPathsL, visibleDirPaths, hvis,
        Bool.false_eq_true, if_false, List.nil_append, ihr.2 p]
  · intro n cs rest t hsome ihr ihd
    have hvis : hasVisibleFileL cs = true := by
      cases hb : hasVisibleFileL cs
      · have := ihd.1 hb
        rw [hsome] at this
        exact Option.noConfusion this
      · rfl
    obtain ⟨kept, hkept, hpaths⟩ := ihd.2 hvis
    rw [hsome] at hkept
    injection hkept with hkept
    subst hkept
    constructor
    · simp only [delChildren, hsome, hasVisibleFileL, hasVisibleFile, hvis, Bool.true_or]
    · intro p
      simp only [delChildren, hsome, dirPathsL, dirPaths, visibleDirPathsL,
        visibleDirPaths, hvis, if_true, ihr.2 p, hpaths, List.cons_append]

theorem delete_recursive_dir (n : String) (cs : List FsTree) :
    delete_recursive (.dir n cs) =
      if hasVisibleFileL cs then
        (.error .notEmpty, some (.dir n (delChildren cs).2))
      else (.ok (), none) := by
  have h := (delChildren_spec cs).1
  cases hv : hasVisibleFileL cs
  · have h0 : (delChildren cs).1 = false := by rw [h, hv]
    simp [delete_recursive, delDir, h0, hv]
  · have h0 : (delChildren cs).1 = true := by rw [h, hv]
    simp [delete_recursive, delDir, h0, hv]

/-! ### Characterization of get_file_list -/

/-- specFiles summed over a work list of (path, tree) entries. -/
def specFilesE : List (DirPath × FsTree) → List DirPath
  | [] => []
  | (p, t) :: rest => specFiles p t ++ specFilesE rest

theorem specFilesE_append (a b : List (DirPath × FsTree)) :
    specFilesE (a ++ b) = specFilesE a ++ specFilesE b := by
  induction a with
  | nil => simp [specFilesE]
  | cons e rest ih =>
      obtain ⟨p, t⟩ := e
      simp [specFilesE, ih]

theorem specFilesE_map (q : DirPath) (cs : List FsTree) :
    specFilesE (cs.map fun c => (q, c)) = specFilesL q cs := by
  induction cs with
  | nil => simp [specFilesE, specFilesL]
  | cons c rest ih => simp [specFilesE, specFilesL, ih]

theorem crawlLoop_perm (l : List (DirPath × FsTree)) :
    (crawlLoop l).Perm (specFilesE l) := by
  induction l using crawlLoop.induct with
  | case1 => simp [crawlLoop, specFilesE]
  | case2 p n rest hh ih =>
      have hs : specFiles p (.file n) = [] := by simp [specFiles, hh]
      simpa [crawlLoop, hh, specFilesE, hs] using ih
  | case3 p n rest hh ih =>
      have hb : hiddenName n = false := by
        cases hv : hiddenName n
        · rfl
        · exact absurd hv hh
      have hs : specFiles p (.file n) = [p ++ [n]] := by simp [specFiles, hb]
      simp only [crawlLoop, hb, Bool.false_eq_true, if_false, specFilesE, hs,
        List.singleton_append]
      exact ih.cons _
  | case4 p n cs rest ih =>
      have h1 : specFilesE (rest ++ cs.map fun c => (p ++ [n], c))
          = specFilesE rest ++ specFilesL (p ++ [n]) cs := by
        rw [specFilesE_append, specFilesE_map]
      have h2 : specFilesE ((p, FsTree.dir n cs) :: rest)
          = specFilesL (p ++ [n]) cs ++ specFilesE rest := by
        simp [specFilesE, specFiles]
      have h3 : crawlLoop ((p, FsTree.dir n cs) :: rest)
          = crawlLoop (rest ++ cs.map fun c => (p ++ [n], c)) := by
        simp [crawlLoop]
      rw [h3, h2]
      rw [h1] at ih
      exact ih.trans List.perm_append_comm

theorem specFiles_shape (p0 : DirPath) (t0 : FsTree) :
    ∀ q ∈ specFiles p0 t0, ∃ r, q = p0 ++ FsTree.rootName t0 :: r := by
  refine specFiles.induct
    (fun p t => ∀ q ∈ specFiles p t, ∃ r, q = p ++ FsTree.rootName t :: r)
    (fun p cs => ∀ q ∈ specFilesL p cs,
      ∃ c ∈ cs, ∃ r, q = p ++ FsTree.rootName c :: r)
    ?_ ?_ ?_ ?_ ?_ p0 t0
  · intro p n hh q hq
    simp [specFiles, hh] at hq
  · intro p n hh q hq
    have hb : hiddenName n = false := by
      cases hv : hiddenName n
      · rfl
      · exact absurd hv hh
    simp only [specFiles, hb, Bool.false_eq_true, if_false, List.mem_singleton] at hq
    exact ⟨[], by simpa [FsTree.rootName] using hq⟩
  · intro p n cs ih q hq
    simp only [specFiles] at hq
    obtain ⟨c, _, r, hr⟩ := ih q hq
    exact ⟨FsTree.rootName c :: r, by simpa [FsTree.rootName] using hr⟩
  · intro p q hq
    simp [specFilesL] at hq
  · intro p c rest ihc ihrest q hq
    simp only [specFilesL, List.mem_append] at hq
    rcases hq with hq | hq
    · obtain ⟨r, hr⟩ := ihc q hq
      exact ⟨c, List.mem_cons_self c rest, r, hr⟩
    · obtain ⟨c', hc', r, hr⟩ := ihrest q hq
      exact ⟨c', List.mem_cons_of_mem c hc', r, hr⟩

theorem specFilesL_shape (p : DirPath) (cs : List FsTree) :
    ∀ q ∈ specFilesL p cs, ∃ c ∈ cs, ∃ r, q = p ++ FsTree.rootName c :: r := by
  induction cs with
  | nil => intro q hq; simp [specFilesL] at hq
  | cons c rest ih =>
      intro q hq
      simp only [specFilesL, List.mem_append] at hq
      rcases hq with hq | hq
      · obtain ⟨r, hr⟩ := specFiles_shape p c q hq
        exact ⟨c, List.mem_cons_self c rest, r, hr⟩
      · obtain ⟨c', hc', r, hr⟩ := ih q hq
        exact ⟨c', List.mem_cons_of_mem c hc', r, hr⟩

theorem specFiles_nodup (p0 : DirPath) (t0 : FsTree) :
    wfTree t0 = true → (specFiles p0 t0).Nodup := by
  refine specFiles.induct
    (fun p t => wfTree t = true → (specFiles p t).Nodup)
    (fun p cs => wfTreeL cs = true → (cs.map FsTree.rootName).Nodup →
      (specFilesL p cs).Nodup)
    ?_ ?_ ?_ ?_ ?_ p0 t0
  · intro p n hh _
    simp [specFiles, hh]
  · intro p n hh _
    have hb : hiddenName n = false := by
      cases hv : hiddenName n
      · rfl
      · exact absurd hv hh
    simp [specFiles, hb]
  · intro p n cs ih hwf
    simp only [wfTree, Bool.and_eq_true, decide_eq_true_eq] at hwf
    simp only [specFiles]
    exact ih hwf.2 hwf.1
  · intro p _ _
    simp [specFilesL]
  · intro p c rest ihc ihrest hwf hnames
    simp only [wfTreeL, Bool.and_eq_true] at hwf
    simp only [List.map_cons, List.nodup_cons] at hnames
    simp only [specFilesL]
    rw [List.nodup_append]
    refine ⟨ihc hwf.1, ihrest hwf.2 hnames.2, ?_⟩
    intro q hq hq'
    obtain ⟨r, hr⟩ := specFiles_shape p c q hq
    obtain ⟨c', hc', r', hr'⟩ := specFilesL_shape p rest q hq'
    rw [hr] at hr'
    have : FsTree.rootName c = FsTree.rootName c' := by
      have h := List.append_cancel_left hr'
      exact (List.cons_eq_cons.mp h).1
    exact hnames.1 (this ▸ List.mem_map_of_mem FsTree.rootName hc')

/-! ## Single-file compressor (src/compressor.rs) -/

/-- An abstract decoded image: dimensions and an abstract pixel payload. -/
structure Image where
  width : ℕ
  height : ℕ
  payload : ℕ

/-- The external image codec capability (the image and mozjpeg crates,
spec section 6): file contents are abstract naturals; decoding and jpeg
encoding may fail, and the numerics of resizing and encoding are opaque. -/
structure Codec where
  decode : ℕ → Option Image
  saveJpg : Image → ℕ
  resizeImg : Image → ℚ → Image
  encodeJpeg : Image → ℚ → Option ℕ
  fileSize : ℕ → ℕ

/-- A file name split as Rust's file_stem and extension split it
("a.png" has stem "a" and extension "png"; no extension is modelled as
the empty string, matching OsStr::new("") in src/compressor.rs line 271). -/
structure FName where
  stem : String
  ext : String
  deriving DecidableEq

/-- The full file name, as Path::file_name returns it. -/
def FName.fullName (n : FName) : String :=
  if n.ext = "" then n.stem else n.stem ++ "." ++ n.ext

/-- A file path: the directory components and the file name. -/
abbrev FPath := DirPath × FName

/-- A flat filesystem: an association list from file paths to contents. -/
abbrev FS := List (FPath × ℕ)

def lookupFile : FS → FPath → Option ℕ
  | [], _ => none
  | (q, c) :: rest, p => if q = p then some c else lookupFile rest p

/-- Path::is_file against the model filesystem. -/
def isFile (fs : FS) (p : FPath) : Bool := (lookupFile fs p).isSome

def removeFile (fs : FS) (p : FPath) : FS :=
  fs.filter fun e => decide (e.1 ≠ p)

def writeFile (fs : FS) (p : FPath) (c : ℕ) : FS :=
  (p, c) :: removeFile fs p

/-- Filesystem side effects, in chronological order. -/
inductive FsEvent where
  | write (p : FPath)
  | copy (src dst : FPath)
  | remove (p : FPath)

/-- The compressor error kinds (src/compressor.rs): destination collision
(ErrorKind AlreadyExists, lines 278-292), failed conversion with verbatim
copy (ErrorKind InvalidData, line 309; the spec's UnsupportedFormat),
image decode failures propagated by the question-mark operator, jpeg
encode failure, the refusal of delete_duplicate_file (ErrorKind NotFound,
line 50), and other io failures. -/
inductive CompressError where
  | alreadyExists
  | unsupportedFormat
  | decodeError
  | encodeError
  | notFound
  | ioError
  deriving DecidableEq

/-- The Compressor struct (src/compressor.rs lines 122-127); the field name
delete_orininal keeps the source's spelling. -/
structure Compressor where
  calculate_quality_and_size : ℕ → ℕ → ℕ → Factor
  original_path : FPath
  destination_path : DirPath
  delete_orininal : Bool

/-- The files get_file_list would report below directory d in the flat
filesystem: every stored file whose directory has d as a prefix and whose
full leaf name is not hidden (recursive descent, hidden leaves excluded). -/
def filesUnder (fs : FS) (d : DirPath) : List FPath :=
  (fs.map Prod.fst).filter fun p => decide (d <+: p.1) && !hiddenName p.2.fullName

/-- delete_duplicate_file (src/compressor.rs lines 29-65): list the files
under the parent of file_path, drop file_path itself from the listing, and
refuse (ErrorKind NotFound) unless some remaining file shares its stem;
otherwise remove the file. -/
def delete_duplicate_file (fs : FS) (p : FPath) :
    Except CompressError Unit × FS × List FsEvent :=
  let listing := (filesUnder fs p.1).erase p
  if (listing.map fun q => q.2.stem).any (fun s => decide (s = p.2.stem)) then
    match lookupFile fs p with
    | some _ => (.ok (), removeFile fs p, [.remove p])
    | none => (.error .ioError, fs, [])
  else (.error .notFound, fs, [])

/-- The final delete-the-original step of compress_to_jpg
(src/compressor.rs lines 347-351). -/
def deleteOriginalStep (c : Compressor) (target_file : FPath) (fs : FS)
    (ev : List FsEvent) : Except CompressError FPath × FS × List FsEvent :=
  if c.delete_orininal then
    match lookupFile fs c.original_path with
    | some _ => (.ok target_file, removeFile fs c.original_path,
                 ev ++ [.remove c.original_path])
    | none => (.error .ioError, fs, ev)
  else (.ok target_file, fs, ev)

/-- compress_to_jpg (src/compressor.rs lines 260-354), with the filesystem
passed explicitly and the side effects recorded in order:
collision checks on the full source name and on the stem.jpg target first
(lines 278-292); then, for a non-jpg/jpeg extension, convert_to_jpg
(lines 160-177) writes stem.jpg next to the source, and on conversion
failure the source is copied verbatim into the destination and the call
fails with the InvalidData error (lines 297-311); then the current file is
re-opened and decoded, the factor computed from the image dimensions and
the original file size, the original resized and encoded (lines 316-334),
the result written to the target (lines 336-337), the converted
intermediate deleted (lines 340-345), and finally the original deleted
when the flag is set (lines 348-351). -/
def compress_to_jpg (codec : Codec) (c : Compressor) (fs : FS) :
    Except CompressError FPath × FS × List FsEvent :=
  let origin := c.original_path
  let target_dir := c.destination_path
  let file_name := origin.2
  let file_stem := origin.2.stem
  let file_extension := origin.2.ext
  let target_file : FPath := (target_dir, ⟨file_stem, "jpg"⟩)
  if isFile fs (target_dir, file_name) then
    (.error .alreadyExists, fs, [])
  else if isFile fs target_file then
    (.error .alreadyExists, fs, [])
  else
    let step : Except CompressError (Option FPath × FPath) × FS × List FsEvent :=
      if file_extension ≠ "jpg" ∧ file_extension ≠ "jpeg" then
        match lookupFile fs origin with
        | none => (.error .ioError, fs, [])
        | some content =>
            match codec.decode content with
            | none =>
                (.error .unsupportedFormat,
                 writeFile fs (target_dir, file_name) content,
                 [.copy origin (target_dir, file_name)])
            | some img =>
                let newPath : FPath := (origin.1, ⟨file_stem, "jpg"⟩)
                (.ok (some newPath, newPath),
                 writeFile fs newPath (codec.saveJpg img),
                 [.write newPath])
      else (.ok (none, origin), fs, [])
    match step with
    | (.error e, fs₁, ev₁) => (.error e, fs₁, ev₁)
    | (.ok (converted, current), fs₁, ev₁) =>
      match lookupFile fs₁ current with
      | none => (.error .decodeError, fs₁, ev₁)
      | some ccontent =>
      match codec.decode ccontent with
      | none => (.error .decodeError, fs₁, ev₁)
      | some img =>
        let fsize := match lookupFile fs₁ origin with
          | some oc => codec.fileSize oc
          | none => 0
        let factor := c.calculate_quality_and_size img.width img.height fsize
        match lookupFile fs₁ origin with
        | none => (.error .decodeError, fs₁, ev₁)
        | some ocontent =>
        match codec.decode ocontent with
        | none => (.error .decodeError, fs₁, ev₁)
        | some oimg =>
          let resized := codec.resizeImg oimg factor.size_ratio
          match codec.encodeJpeg resized factor.quality with
          | none => (.error .encodeError, fs₁, ev₁)
          | some data =>
            let fs₂ := writeFile fs₁ target_file data
            let ev₂ := ev₁ ++ [.write target_file]
            match converted with
            | some pconv =>
                match delete_duplicate_file fs₂ pconv with
                | (.error e, fs₃, ev₃) => (.error e, fs₃, ev₂ ++ ev₃)
                | (.ok _, fs₃, ev₃) => deleteOriginalStep c target_file fs₃ (ev₂ ++ ev₃)
            | none => deleteOriginalStep c target_file fs₂ ev₂

/-! ### Filesystem lemmas -/

theorem lookupFile_removeFile (fs : FS) (p q : FPath) :
    lookupFile (removeFile fs p) q = if q = p then none else lookupFile fs q := by
  induction fs with
  | nil => simp [removeFile, lookupFile]
  | cons e rest ih =>
      obtain ⟨a, c⟩ := e
      by_cases hap : a = p <;> by_cases haq : a = q <;>
        simp_all [removeFile, lookupFile, List.filter_cons]

theorem lookupFile_writeFile (fs : FS) (p : FPath) (c : ℕ) (q : FPath) :
    lookupFile (writeFile fs p c) q = if q = p then some c else lookupFile fs q := by
  simp only [writeFile, lookupFile]
  by_cases hpq : p = q
  · simp [hpq]
  · have hqp : ¬ q = p := fun h => hpq h.symm
    simp only [hpq, if_false, hqp]
    rw [lookupFile_removeFile]
    simp [hqp]

theorem lookupFile_mem (fs : FS) (q : FPath) (c : ℕ)
    (h : lookupFile fs q = some c) : q ∈ fs.map Prod.fst := by
  induction fs with
  | nil => simp [lookupFile] at h
  | cons e rest ih =>
      obtain ⟨a, ca⟩ := e
      simp only [lookupFile] at h
      by_cases haq : a = q
      · subst haq
        simp only [List.map_cons]
        exact List.mem_cons_self _ _
      · simp only [haq, if_false] at h
        simp only [List.map_cons]
        exact List.mem_cons_of_mem _ (ih h)

theorem delete_duplicate_file_cases (fs : FS) (p : FPath) :
    delete_duplicate_file fs p = (.ok (), removeFile fs p, [.remove p]) ∨
    ∃ e, delete_duplicate_file fs p = (.error e, fs, []) := by
  simp only [delete_duplicate_file]
  split
  · cases hl : lookupFile fs p with
    | none => exact .inr ⟨.ioError, by simp only [hl]⟩
    | some cp => exact .inl (by simp only [hl])
  · exact .inr ⟨.notFound, rfl⟩

theorem delete_duplicate_file_ok (fs : FS) (p q : FPath) (cq cp : ℕ)
    (hq : lookupFile fs q = some cq) (hp : lookupFile fs p = some cp)
    (hne : q ≠ p) (hdir : p.1 <+: q.1) (hstem : q.2.stem = p.2.stem)
    (hhid : hiddenName q.2.fullName = false) :
    delete_duplicate_file fs p = (.ok (), removeFile fs p, [.remove p]) := by
  have hmem : q ∈ filesUnder fs p.1 := by
    simp only [filesUnder, List.mem_filter]
    refine ⟨lookupFile_mem fs q cq hq, ?_⟩
    simp [hdir, hhid]
  have hmem' : q ∈ (filesUnder fs p.1).erase p :=
    (List.mem_erase_of_ne hne).mpr hmem
  have hany : ((((filesUnder fs p.1).erase p).map fun e => e.2.stem).any
      fun s => decide (s = p.2.stem)) = true := by
    rw [List.any_eq_true]
    exact ⟨q.2.stem, List.mem_map_of_mem _ hmem', by simp [hstem]⟩
  simp only [delete_duplicate_file]
  simp only [hany, if_true, hp]

/-! ### Concrete fixtures used by witnesses and counterexamples -/

/-- A concrete codec for witnesses: odd contents decode, even ones do not;
saving always produces an odd (decodable) content. -/
def oddCodec : Codec where
  decode n := if n % 2 = 1 then some ⟨10, 10, n⟩ else none
  saveJpg img := 2 * img.payload + 1
  resizeImg img _ := img
  encodeJpeg img _ := some (img.payload + 1000)
  fileSize n := n

/-- A constant factor calculator, as in the crate's examples. -/
def constCal : ℕ → ℕ → ℕ → Factor := fun _ _ _ => ⟨75, 7/10⟩

/-! ## Claims C4, C10, C3: collision and decode-failure behavior -/

/-- C4: when the destination directory already contains the target
stem.jpg file, compress_to_jpg fails with the AlreadyExists error and
performs no side effect: the filesystem is unchanged (so the existing
destination file keeps its content byte for byte) and no event is
emitted. -/
theorem compress_already_exists_target (codec : Codec) (c : Compressor) (fs : FS)
    (h : isFile fs (c.destination_path, ⟨c.original_path.2.stem, "jpg"⟩) = true) :
    compress_to_jpg codec c fs = (.error .alreadyExists, fs, []) := by
  simp [compress_to_jpg, h, ite_self]

/-- C4 witness: a png source whose a.jpg target already exists in the
destination. -/
theorem compress_already_exists_target_witness :
    isFile [(((["dest"] : DirPath), (⟨"a", "jpg"⟩ : FName)), 9),
            (((["origin"] : DirPath), (⟨"a", "png"⟩ : FName)), 3)]
        (["dest"], ⟨"a", "jpg"⟩) = true ∧
    compress_to_jpg oddCodec ⟨constCal, (["origin"], ⟨"a", "png"⟩), ["dest"], false⟩
        [((["dest"], ⟨"a", "jpg"⟩), 9), ((["origin"], ⟨"a", "png"⟩), 3)] =
      (.error .alreadyExists,
       [((["dest"], ⟨"a", "jpg"⟩), 9), ((["origin"], ⟨"a", "png"⟩), 3)], []) :=
  ⟨rfl, compress_already_exists_target oddCodec
    ⟨constCal, (["origin"], ⟨"a", "png"⟩), ["dest"], false⟩
    [((["dest"], ⟨"a", "jpg"⟩), 9), ((["origin"], ⟨"a", "png"⟩), 3)] rfl⟩

/-- C10: compress_to_jpg also fails with AlreadyExists and no side effects
when the destination directory contains a file with the source's full
original name (such as a verbatim copy left by an earlier failed run),
even though the stem.jpg target does not exist. -/
theorem compress_already_exists_name (codec : Codec) (c : Compressor) (fs : FS)
    (h : isFile fs (c.destination_path, c.original_path.2) = true)
    (h2 : isFile fs (c.destination_path, ⟨c.original_path.2.stem, "jpg"⟩) = false) :
    compress_to_jpg codec c fs = (.error .alreadyExists, fs, []) := by
  simp [compress_to_jpg, h]

/-- C10 witness: the destination holds a verbatim copy a.png; a.jpg does
not exist, yet the call fails with AlreadyExists and changes nothing. -/
theorem compress_already_exists_name_witness :
    isFile [(((["dest"] : DirPath), (⟨"a", "png"⟩ : FName)), 9),
            (((["origin"] : DirPath), (⟨"a", "png"⟩ : FName)), 3)]
        (["dest"], ⟨"a", "png"⟩) = true ∧
    isFile [(((["dest"] : DirPath), (⟨"a", "png"⟩ : FName)), 9),
            (((["origin"] : DirPath), (⟨"a", "png"⟩ : FName)), 3)]
        (["dest"], ⟨"a", "jpg"⟩) = false ∧
    compress_to_jpg oddCodec ⟨constCal, (["origin"], ⟨"a", "png"⟩), ["dest"], false⟩
        [((["dest"], ⟨"a", "png"⟩), 9), ((["origin"], ⟨"a", "png"⟩), 3)] =
      (.error .alreadyExists,
       [((["dest"], ⟨"a", "png"⟩), 9), ((["origin"], ⟨"a", "png"⟩), 3)], []) :=
  ⟨rfl, rfl, compress_already_exists_name oddCodec
    ⟨constCal, (["origin"], ⟨"a", "png"⟩), ["dest"], false⟩
    [((["dest"], ⟨"a", "png"⟩), 9), ((["origin"], ⟨"a", "png"⟩), 3)] rfl rfl⟩

/-- C3 (amended): for a source whose extension is neither jpg nor jpeg and
which cannot be decoded, compress_to_jpg copies the source verbatim into
the destination directory and fails with the UnsupportedFormat error —
provided the collision checks pass and the source is readable.  An
undecodable source whose extension is jpg or jpeg is not copied: the
decode error propagates directly (see the counterexample). -/
theorem compress_unsupported_copies_verbatim (codec : Codec) (c : Compressor)
    (fs : FS) (content : ℕ)
    (hext1 : c.original_path.2.ext ≠ "jpg") (hext2 : c.original_path.2.ext ≠ "jpeg")
    (h1 : isFile fs (c.destination_path, c.original_path.2) = false)
    (h2 : isFile fs (c.destination_path, ⟨c.original_path.2.stem, "jpg"⟩) = false)
    (hsrc : lookupFile fs c.original_path = some content)
    (hdec : codec.decode content = none) :
    compress_to_jpg codec c fs =
      (.error .unsupportedFormat,
       writeFile fs (c.destination_path, c.original_path.2) content,
       [.copy c.original_path (c.destination_path, c.original_path.2)]) := by
  simp [compress_to_jpg, h1, h2, hext1, hext2, hsrc, hdec]

/-- C3 witness: an undecodable txt file is copied verbatim into the
destination and the call reports UnsupportedFormat. -/
theorem compress_unsupported_copies_verbatim_witness :
    lookupFile [(((["origin"] : DirPath), (⟨"file7", "txt"⟩ : FName)), 4)]
        (["origin"], ⟨"file7", "txt"⟩) = some 4 ∧
    oddCodec.decode 4 = none ∧
    compress_to_jpg oddCodec ⟨constCal, (["origin"], ⟨"file7", "txt"⟩), ["dest"], false⟩
        [((["origin"], ⟨"file7", "txt"⟩), 4)] =
      (.error .unsupportedFormat,
       [((["dest"], ⟨"file7", "txt"⟩), 4), ((["origin"], ⟨"file7", "txt"⟩), 4)],
       [.copy (["origin"], ⟨"file7", "txt"⟩) (["dest"], ⟨"file7", "txt"⟩)]) :=
  ⟨rfl, rfl, compress_unsupported_copies_verbatim oddCodec
    ⟨constCal, (["origin"], ⟨"file7", "txt"⟩), ["dest"], false⟩
    [((["origin"], ⟨"file7", "txt"⟩), 4)] 4
    (by decide) (by decide) rfl rfl rfl rfl⟩

/-- C3 counterexample: an undecodable source whose extension is jpg is not
copied verbatim — compress_to_jpg propagates the decode error (which is
not the UnsupportedFormat outcome), emits no event and leaves the
filesystem untouched, refuting the "regardless of its file extension"
part of the claim. -/
theorem compress_unsupported_counterexample :
    compress_to_jpg oddCodec ⟨constCal, (["origin"], ⟨"bad", "jpg"⟩), ["dest"], false⟩
        [((["origin"], ⟨"bad", "jpg"⟩), 4)] =
      (.error .decodeError, [((["origin"], ⟨"bad", "jpg"⟩), 4)], []) ∧
    CompressError.decodeError ≠ CompressError.unsupportedFormat :=
  ⟨rfl, by decide⟩

/-! ### Trace lemmas -/

theorem not_mem_second_conj (ev : List FsEvent) (x : FsEvent) (tgt : FPath)
    (h : x ∉ ev) :
    ∀ pre post, ev = pre ++ x :: post → FsEvent.write tgt ∈ pre := by
  intro pre post he
  refine absurd ?_ h
  rw [he]
  exact List.mem_append_right pre (List.mem_cons_self x post)

theorem write_mem_pre_of_eq_append (A B : List FsEvent) (x : FsEvent) (tgt : FPath)
    (hx : x ∉ A) (hy : FsEvent.write tgt ∈ A) :
    ∀ pre post, A ++ x :: B = pre ++ x :: post → FsEvent.write tgt ∈ pre := by
  induction A generalizing B with
  | nil => cases hy
  | cons a A' ih =>
      intro pre post h
      cases pre with
      | nil =>
          simp only [List.cons_append, List.nil_append] at h
          have hax : a = x := (List.cons_eq_cons.mp h).1
          exact absurd (hax ▸ List.mem_cons_self a A') hx
      | cons p pre' =>
          simp only [List.cons_append] at h
          obtain ⟨hap, hrest⟩ := List.cons_eq_cons.mp h
          rcases List.mem_cons.mp hy with hy1 | hy2
          · exact List.mem_cons.mpr (Or.inl (hy1.trans hap))
          · have hx' : x ∉ A' := fun hm => hx (List.mem_cons_of_mem a hm)
            exact List.mem_cons_of_mem p (ih B hx' hy2 pre' post hrest)

/-! ## Claim C5: source deletion gating -/

/-- C5: when compress_to_jpg returns an error — collision, decode failure,
encode failure or a failure while deleting the converted duplicate — the
source file still exists with its original content; and the source file is
only ever removed after the compressed output has been written to the
destination target (every remove-source event in the trace is preceded by
the write of the destination target). -/
theorem compress_source_deleted_only_after_write (codec : Codec) (c : Compressor)
    (fs : FS) (content : ℕ)
    (hsrc : lookupFile fs c.original_path = some content) :
    (∀ e, (compress_to_jpg codec c fs).1 = .error e →
      lookupFile (compress_to_jpg codec c fs).2.1 c.original_path = some content) ∧
    (∀ pre post, (compress_to_jpg codec c fs).2.2
        = pre ++ FsEvent.remove c.original_path :: post →
      FsEvent.write (c.destination_path, ⟨c.original_path.2.stem, "jpg"⟩) ∈ pre) := by
  have horig : isFile fs c.original_path = true := by simp [isFile, hsrc]
  cases hA : isFile fs (c.destination_path, c.original_path.2) with
  | true =>
      have h : compress_to_jpg codec c fs = (.error .alreadyExists, fs, []) := by
        simp [compress_to_jpg, hA]
      rw [h]
      refine ⟨fun e _ => hsrc, fun pre post hpp => ?_⟩
      exact not_mem_second_conj [] _ _ (by simp) pre post hpp
  | false =>
  cases hB : isFile fs (c.destination_path, ⟨c.original_path.2.stem, "jpg"⟩) with
  | true =>
      have h : compress_to_jpg codec c fs = (.error .alreadyExists, fs, []) := by
        simp [compress_to_jpg, hA, hB]
      rw [h]
      refine ⟨fun e _ => hsrc, fun pre post hpp => ?_⟩
      exact not_mem_second_conj [] _ _ (by simp) pre post hpp
  | false =>
  have hod : c.original_path ≠ (c.destination_path, c.original_path.2) := by
    intro h
    rw [h] at horig
    rw [horig] at hA
    exact Bool.noConfusion hA
  have hot : c.original_path ≠ (c.destination_path, ⟨c.original_path.2.stem, "jpg"⟩) := by
    intro h
    rw [h] at horig
    rw [horig] at hB
    exact Bool.noConfusion hB
  by_cases hext : c.original_path.2.ext ≠ "jpg" ∧ c.original_path.2.ext ≠ "jpeg"
  · -- conversion branch
    cases hdec : codec.decode content with
    | none =>
        have h : compress_to_jpg codec c fs =
            (.error .unsupportedFormat,
             writeFile fs (c.destination_path, c.original_path.2) content,
             [.copy c.original_path (c.destination_path, c.original_path.2)]) := by
          simp [compress_to_jpg, hA, hB, hext, hsrc, hdec]
        rw [h]
        constructor
        · intro e _
          rw [lookupFile_writeFile, if_neg hod]
          exact hsrc
        · exact not_mem_second_conj _ _ _ (by simp)
    | some img =>
        have hio : (c.original_path.1, (⟨c.original_path.2.stem, "jpg"⟩ : FName))
            ≠ c.original_path := by
          intro h
          apply hext.1
          have := congrArg (fun p : FPath => p.2.ext) h
          simpa using this.symm
        have hsrc₁ : lookupFile
            (writeFile fs (c.original_path.1, ⟨c.original_path.2.stem, "jpg"⟩)
              (codec.saveJpg img)) c.original_path = some content := by
          rw [lookupFile_writeFile, if_neg (Ne.symm hio)]
          exact hsrc
        cases hdec2 : codec.decode (codec.saveJpg img) with
        | none =>
            have h : compress_to_jpg codec c fs =
                (.error .decodeError,
                 writeFile fs (c.original_path.1, ⟨c.original_path.2.stem, "jpg"⟩)
                   (codec.saveJpg img),
                 [.write (c.original_path.1, ⟨c.original_path.2.stem, "jpg"⟩)]) := by
              simp [compress_to_jpg, hA, hB, hext, hsrc, hdec, hdec2,
                lookupFile_writeFile]
            rw [h]
            exact ⟨fun e _ => hsrc₁, not_mem_second_conj _ _ _ (by simp)⟩
        | some img2 =>
            cases henc : codec.encodeJpeg
                (codec.resizeImg img
                  (c.calculate_quality_and_size img2.width img2.height
                    (codec.fileSize content)).size_ratio)
                (c.calculate_quality_and_size img2.width img2.height
                  (codec.fileSize content)).quality with
            | none =>
                have h : compress_to_jpg codec c fs =
                    (.error .encodeError,
                     writeFile fs (c.original_path.1, ⟨c.original_path.2.stem, "jpg"⟩)
                       (codec.saveJpg img),
                     [.write (c.original_path.1, ⟨c.original_path.2.stem, "jpg"⟩)]) := by
                  simp [compress_to_jpg, hA, hB, hext, hsrc, hdec, hdec2, henc,
                    lookupFile_writeFile, Ne.symm hio]
                rw [h]
                exact ⟨fun e _ => hsrc₁, not_mem_second_conj _ _ _ (by simp)⟩
            | some data =>
                have hsrc₂ : lookupFile
                    (writeFile
                      (writeFile fs (c.original_path.1, ⟨c.original_path.2.stem, "jpg"⟩)
                        (codec.saveJpg img))
                      (c.destination_path, ⟨c.original_path.2.stem, "jpg"⟩) data)
                    c.original_path = some content := by
                  rw [lookupFile_writeFile, if_neg hot]
                  exact hsrc₁
                rcases delete_duplicate_file_cases
                    (writeFile
                      (writeFile fs (c.original_path.1, ⟨c.original_path.2.stem, "jpg"⟩)
                        (codec.saveJpg img))
                      (c.destination_path, ⟨c.original_path.2.stem, "jpg"⟩) data)
                    (c.original_path.1, ⟨c.original_path.2.stem, "jpg"⟩)
                    with hdd | ⟨e₀, hdd⟩
                · cases hflag : c.delete_orininal with
                  | false =>
                      have h : compress_to_jpg codec c fs =
                          (.ok (c.destination_path, ⟨c.original_path.2.stem, "jpg"⟩),
                           removeFile
                             (writeFile
                               (writeFile fs
                                 (c.original_path.1, ⟨c.original_path.2.stem, "jpg"⟩)
                                 (codec.saveJpg img))
                               (c.destination_path, ⟨c.original_path.2.stem, "jpg"⟩) data)
                             (c.original_path.1, ⟨c.original_path.2.stem, "jpg"⟩),
                           [.write (c.original_path.1, ⟨c.original_path.2.stem, "jpg"⟩),
                            .write (c.destination_path, ⟨c.original_path.2.stem, "jpg"⟩),
                            .remove (c.original_path.1, ⟨c.original_path.2.stem, "jpg"⟩)]) := by
                        simp [compress_to_jpg, hA, hB, hext, hsrc, hdec, hdec2, henc,
                          lookupFile_writeFile, hdd, deleteOriginalStep, hflag,
                          Ne.symm hio]
                      rw [h]
                      refine ⟨fun e he => Except.noConfusion he, ?_⟩
                      exact not_mem_second_conj _ _ _ (by simp [Ne.symm hio])
                  | true =>
                      have hsrc₃ : lookupFile
                          (removeFile
                            (writeFile
                              (writeFile fs
                                (c.original_path.1, ⟨c.original_path.2.stem, "jpg"⟩)
                                (codec.saveJpg img))
                              (c.destination_path, ⟨c.original_path.2.stem, "jpg"⟩) data)
                            (c.original_path.1, ⟨c.original_path.2.stem, "jpg"⟩))
                          c.original_path = some content := by
                        rw [lookupFile_removeFile, if_neg (Ne.symm hio)]
                        exact hsrc₂
                      have h : (compress_to_jpg codec c fs).2.2 =
                          [.write (c.original_path.1, ⟨c.original_path.2.stem, "jpg"⟩),
                           .write (c.destination_path, ⟨c.original_path.2.stem, "jpg"⟩),
                           .remove (c.original_path.1, ⟨c.original_path.2.stem, "jpg"⟩)]
                          ++ .remove c.original_path :: [] ∧
                          (compress_to_jpg codec c fs).1
                            = .ok (c.destination_path, ⟨c.original_path.2.stem, "jpg"⟩) := by
                        constructor <;>
                          simp [compress_to_jpg, hA, hB, hext, hsrc, hdec, hdec2, henc,
                            lookupFile_writeFile, hdd, deleteOriginalStep, hflag, hsrc₃,
                            Ne.symm hio]
                      constructor
                      · intro e he
                        rw [h.2] at he
                        exact Except.noConfusion he
                      · intro pre post hpp
                        rw [h.1] at hpp
                        exact write_mem_pre_of_eq_append _ _ _ _
                          (by simp [Ne.symm hio]) (by simp) pre post hpp
                · have h : compress_to_jpg codec c fs =
                      (.error e₀,
                       writeFile
                         (writeFile fs
                           (c.original_path.1, ⟨c.original_path.2.stem, "jpg"⟩)
                           (codec.saveJpg img))
                         (c.destination_path, ⟨c.original_path.2.stem, "jpg"⟩) data,
                       [.write (c.original_path.1, ⟨c.original_path.2.stem, "jpg"⟩),
                        .write (c.destination_path, ⟨c.original_path.2.stem, "jpg"⟩)]) := by
                    simp [compress_to_jpg, hA, hB, hext, hsrc, hdec, hdec2, henc,
                      lookupFile_writeFile, hdd, Ne.symm hio]
                  rw [h]
                  exact ⟨fun e _ => hsrc₂, not_mem_second_conj _ _ _ (by simp)⟩
  · -- jpg/jpeg branch: no conversion
    cases hdec : codec.decode content with
    | none =>
        have h : compress_to_jpg codec c fs = (.error .decodeError, fs, []) := by
          simp [compress_to_jpg, hA, hB, hext, hsrc, hdec]
        rw [h]
        exact ⟨fun e _ => hsrc, not_mem_second_conj _ _ _ (by simp)⟩
    | some img =>
        cases henc : codec.encodeJpeg
            (codec.resizeImg img
              (c.calculate_quality_and_size img.width img.height
                (codec.fileSize content)).size_ratio)
            (c.calculate_quality_and_size img.width img.height
              (codec.fileSize content)).quality with
        | none =>
            have h : compress_to_jpg codec c fs = (.error .encodeError, fs, []) := by
              simp [compress_to_jpg, hA, hB, hext, hsrc, hdec, henc]
            rw [h]
            exact ⟨fun e _ => hsrc, not_mem_second_conj _ _ _ (by simp)⟩
        | some data =>
            have hsrc₂ : lookupFile
                (writeFile fs (c.destination_path, ⟨c.original_path.2.stem, "jpg"⟩) data)
                c.original_path = some content := by
              rw [lookupFile_writeFile, if_neg hot]
              exact hsrc
            cases hflag : c.delete_orininal with
            | false =>
                have h : compress_to_jpg codec c fs =
                    (.ok (c.destination_path, ⟨c.original_path.2.stem, "jpg"⟩),
                     writeFile fs (c.destination_path, ⟨c.original_path.2.stem, "jpg"⟩) data,
                     [.write (c.destination_path, ⟨c.original_path.2.stem, "jpg"⟩)]) := by
                  simp [compress_to_jpg, hA, hB, hext, hsrc, hdec, henc,
                    deleteOriginalStep, hflag]
                rw [h]
                refine ⟨fun e he => Except.noConfusion he, ?_⟩
                exact not_mem_second_conj _ _ _ (by simp)
            | true =>
                have h : (compress_to_jpg codec c fs).2.2 =
                    [.write (c.destination_path, ⟨c.original_path.2.stem, "jpg"⟩)]
                    ++ .remove c.original_path :: [] ∧
                    (compress_to_jpg codec c fs).1
                      = .ok (c.destination_path, ⟨c.original_path.2.stem, "jpg"⟩) := by
                  constructor <;>
                    simp [compress_to_jpg, hA, hB, hext, hsrc, hdec, henc,
                      deleteOriginalStep, hflag, hsrc₂]
                constructor
                · intro e he
                  rw [h.2] at he
                  exact Except.noConfusion he
                · intro pre post hpp
                  rw [h.1] at hpp
                  exact write_mem_pre_of_eq_append _ _ _ _
                    (by simp) (by simp) pre post hpp

/-! ## Claim C2: recursive delete on a non-empty tree -/

/-- C2 (amended): on a directory whose subtree contains a non-hidden file,
delete_recursive fails with the not-empty error, but directories are not
all kept: exactly those directories whose own subtree contains a
non-hidden file still exist afterward, while sub-branches without one —
even under the failing root — are removed. -/
theorem delete_recursive_not_empty (n : String) (cs : List FsTree)
    (h : hasVisibleFile (.dir n cs) = true) :
    (delete_recursive (.dir n cs)).1 = .error .notEmpty ∧
    ∃ t, (delete_recursive (.dir n cs)).2 = some t ∧
      dirPaths [] t = visibleDirPaths [] (.dir n cs) := by
  have hv : hasVisibleFileL cs = true := by
    simpa [hasVisibleFile] using h
  rw [delete_recursive_dir]
  refine ⟨by simp [hv], ⟨.dir n (delChildren cs).2, by simp [hv], ?_⟩⟩
  simp only [dirPaths, visibleDirPaths, hv, if_true, List.nil_append]
  exact congrArg (List.cons [n]) ((delChildren_spec cs).2 [n])

/-- C2 witness: a tree with one non-hidden file three levels deep fails
with the not-empty error and every directory on the path to the file
survives. -/
theorem delete_recursive_not_empty_witness :
    hasVisibleFile (.dir "a" [.dir "b" [.dir "c" [.file "f.txt"]]]) = true ∧
    ((delete_recursive (.dir "a" [.dir "b" [.dir "c" [.file "f.txt"]]])).1
        = .error .notEmpty ∧
     ∃ t, (delete_recursive (.dir "a" [.dir "b" [.dir "c" [.file "f.txt"]]])).2
        = some t ∧
       dirPaths [] t
        = visibleDirPaths [] (.dir "a" [.dir "b" [.dir "c" [.file "f.txt"]]])) := by
  have hh : hiddenName "f.txt" = false := by decide
  exact ⟨by simp [hasVisibleFile, hasVisibleFileL, hh],
    delete_recursive_not_empty "a" [.dir "b" [.dir "c" [.file "f.txt"]]]
      (by simp [hasVisibleFile, hasVisibleFileL, hh])⟩

/-- C2 counterexample: a root holding an empty subdirectory and one
non-hidden file.  The call fails with the not-empty error, yet the empty
subdirectory is removed: the surviving tree no longer contains the
directory root/empty, refuting "no directory is removed at any level". -/
theorem delete_recursive_counterexample :
    (delete_recursive (.dir "root" [.dir "empty" [], .file "a.txt"])).1
      = .error .notEmpty ∧
    (delete_recursive (.dir "root" [.dir "empty" [], .file "a.txt"])).2
      = some (.dir "root" [.file "a.txt"]) ∧
    ["root", "empty"] ∈ dirPaths [] (.dir "root" [.dir "empty" [], .file "a.txt"]) ∧
    ["root", "empty"] ∉ dirPaths [] (.dir "root" [.file "a.txt"]) := by
  have h1 : hiddenName "a.txt" = false := by decide
  have h0 : delChildren ([] : List FsTree) = (false, []) := by rw [delChildren]
  have hdd : delDir "empty" [] = none := by rw [delDir, h0]; rfl
  have h2 : delChildren [FsTree.file "a.txt"] = (true, [FsTree.file "a.txt"]) := by
    rw [delChildren, h0, h1]
    rfl
  have h3 : delChildren [FsTree.dir "empty" [], FsTree.file "a.txt"]
      = (true, [FsTree.file "a.txt"]) := by
    rw [delChildren, h2, hdd]
  have hv : hasVisibleFileL [FsTree.dir "empty" [], FsTree.file "a.txt"] = true := by
    rw [← (delChildren_spec [FsTree.dir "empty" [], FsTree.file "a.txt"]).1, h3]
  have hmain : delete_recursive (.dir "root" [.dir "empty" [], .file "a.txt"])
      = (.error .notEmpty, some (.dir "root" [.file "a.txt"])) := by
    rw [delete_recursive_dir, if_pos hv, h3]
  refine ⟨by rw [hmain], by rw [hmain], ?_, ?_⟩
  · simp [dirPaths, dirPathsL]
  · simp [dirPaths, dirPathsL]

/-! ## Claim C6: completeness of the crawler -/

/-- C6: on a well-formed directory tree, get_file_list succeeds and
returns, without duplicates, a permutation of exactly the non-hidden
regular files reachable by recursive descent (specFiles): hidden files are
excluded by their leaf name at any depth, directories never appear, and a
hidden directory is still descended into. -/
theorem get_file_list_complete (n : String) (cs : List FsTree)
    (hwf : wfTree (.dir n cs) = true) :
    ∃ l, get_file_list (.dir n cs) = .ok l ∧
      l.Perm (specFiles [] (.dir n cs)) ∧ l.Nodup := by
  refine ⟨crawlLoop (cs.map fun c => ([n], c)), by simp [get_file_list], ?_, ?_⟩
  · have hp := crawlLoop_perm (cs.map fun c => ([n], c))
    rw [specFilesE_map] at hp
    have heq : specFiles [] (FsTree.dir n cs) = specFilesL [n] cs := by
      simp [specFiles]
    rw [heq]
    exact hp
  · have hp := crawlLoop_perm (cs.map fun c => ([n], c))
    rw [specFilesE_map] at hp
    have hnd : (specFilesL [n] cs).Nodup := by
      have h := specFiles_nodup [] (.dir n cs) hwf
      simpa [specFiles] using h
    exact hp.symm.nodup hnd

/-- C6 witness: a root with a hidden file (excluded), a visible file, a
hidden directory (still descended into) and a normal subdirectory. -/
theorem get_file_list_complete_witness :
    wfTree (.dir "root" [.file ".hidden", .file "a.png",
      .dir ".git" [.file "obj"], .dir "sub" [.file "b.txt"]]) = true ∧
    (∃ l, get_file_list (.dir "root" [.file ".hidden", .file "a.png",
        .dir ".git" [.file "obj"], .dir "sub" [.file "b.txt"]]) = .ok l ∧
      l.Perm (specFiles [] (.dir "root" [.file ".hidden", .file "a.png",
        .dir ".git" [.file "obj"], .dir "sub" [.file "b.txt"]])) ∧ l.Nodup) :=
  ⟨by simp [wfTree, wfTreeL, FsTree.rootName],
   get_file_list_complete "root" [.file ".hidden", .file "a.png",
      .dir ".git" [.file "obj"], .dir "sub" [.file "b.txt"]]
     (by simp [wfTree, wfTreeL, FsTree.rootName])⟩

/-- C5 witness: a decodable png source; the only error path exercised here
has the trace free of any remove of the source, and the conclusion holds
at this concrete run. -/
theorem compress_source_deleted_only_after_write_witness :
    lookupFile [(((["origin"] : DirPath), (⟨"a", "png"⟩ : FName)), 3)]
      ((["origin"] : DirPath), (⟨"a", "png"⟩ : FName)) = some 3 ∧
    ((∀ e, (compress_to_jpg oddCodec
          ⟨constCal, (["origin"], ⟨"a", "png"⟩), ["dest"], false⟩
          [((["origin"], ⟨"a", "png"⟩), 3)]).1 = .error e →
        lookupFile (compress_to_jpg oddCodec
          ⟨constCal, (["origin"], ⟨"a", "png"⟩), ["dest"], false⟩
          [((["origin"], ⟨"a", "png"⟩), 3)]).2.1
          (["origin"], ⟨"a", "png"⟩) = some 3) ∧
     (∀ pre post, (compress_to_jpg oddCodec
          ⟨constCal, (["origin"], ⟨"a", "png"⟩), ["dest"], false⟩
          [((["origin"], ⟨"a", "png"⟩), 3)]).2.2
          = pre ++ FsEvent.remove (["origin"], ⟨"a", "png"⟩) :: post →
        FsEvent.write (["dest"], ⟨"a", "jpg"⟩) ∈ pre)) :=
  ⟨rfl, compress_source_deleted_only_after_write oddCodec
    ⟨constCal, (["origin"], ⟨"a", "png"⟩), ["dest"], false⟩
    [((["origin"], ⟨"a", "png"⟩), 3)] 3 rfl⟩

/-! ## Claim C9: the converted intermediate in the source directory -/

/-- C9: for a decodable source whose extension is neither jpg nor jpeg, a
successful compress_to_jpg run writes the converted intermediate stem.jpg
into the source file's own parent directory, then writes the compressed
output to the destination, and only then deletes the intermediate — the
trace is exactly write-intermediate, write-target, remove-intermediate,
so the source directory is mutated even though the delete-original flag is
false. -/
theorem compress_converts_in_source_dir (codec : Codec) (c : Compressor)
    (fs : FS) (content : ℕ) (img img2 : Image) (data : ℕ)
    (hflag : c.delete_orininal = false)
    (hext1 : c.original_path.2.ext ≠ "jpg") (hext2 : c.original_path.2.ext ≠ "jpeg")
    (h1 : isFile fs (c.destination_path, c.original_path.2) = false)
    (h2 : isFile fs (c.destination_path, ⟨c.original_path.2.stem, "jpg"⟩) = false)
    (hsrc : lookupFile fs c.original_path = some content)
    (hdec : codec.decode content = some img)
    (hdec2 : codec.decode (codec.saveJpg img) = some img2)
    (henc : codec.encodeJpeg
        (codec.resizeImg img
          (c.calculate_quality_and_size img2.width img2.height
            (codec.fileSize content)).size_ratio)
        (c.calculate_quality_and_size img2.width img2.height
          (codec.fileSize content)).quality = some data)
    (hhid : hiddenName c.original_path.2.fullName = false) :
    compress_to_jpg codec c fs =
      (.ok (c.destination_path, ⟨c.original_path.2.stem, "jpg"⟩),
       removeFile
         (writeFile
           (writeFile fs (c.original_path.1, ⟨c.original_path.2.stem, "jpg"⟩)
             (codec.saveJpg img))
           (c.destination_path, ⟨c.original_path.2.stem, "jpg"⟩) data)
         (c.original_path.1, ⟨c.original_path.2.stem, "jpg"⟩),
       [.write (c.original_path.1, ⟨c.original_path.2.stem, "jpg"⟩),
        .write (c.destination_path, ⟨c.original_path.2.stem, "jpg"⟩),
        .remove (c.original_path.1, ⟨c.original_path.2.stem, "jpg"⟩)]) := by
  have horig : isFile fs c.original_path = true := by simp [isFile, hsrc]
  have hio : (c.original_path.1, (⟨c.original_path.2.stem, "jpg"⟩ : FName))
      ≠ c.original_path := by
    intro h
    apply hext1
    have := congrArg (fun p : FPath => p.2.ext) h
    simpa using this.symm
  have hot : c.original_path ≠ (c.destination_path, ⟨c.original_path.2.stem, "jpg"⟩) := by
    intro h
    rw [h] at horig
    rw [horig] at h2
    exact Bool.noConfusion h2
  have hit : (c.original_path.1, (⟨c.original_path.2.stem, "jpg"⟩ : FName))
      ≠ (c.destination_path, ⟨c.original_path.2.stem, "jpg"⟩) := by
    intro h
    have hdir : c.original_path.1 = c.destination_path :=
      congrArg Prod.fst h
    have : c.original_path = (c.destination_path, c.original_path.2) := by
      rw [← hdir]
    rw [this] at horig
    rw [horig] at h1
    exact Bool.noConfusion h1
  have hsrc₁ : lookupFile
      (writeFile fs (c.original_path.1, ⟨c.original_path.2.stem, "jpg"⟩)
        (codec.saveJpg img)) c.original_path = some content := by
    rw [lookupFile_writeFile, if_neg (Ne.symm hio)]
    exact hsrc
  have hsrc₂ : lookupFile
      (writeFile
        (writeFile fs (c.original_path.1, ⟨c.original_path.2.stem, "jpg"⟩)
          (codec.saveJpg img))
        (c.destination_path, ⟨c.original_path.2.stem, "jpg"⟩) data)
      c.original_path = some content := by
    rw [lookupFile_writeFile, if_neg hot]
    exact hsrc₁
  have hint₂ : lookupFile
      (writeFile
        (writeFile fs (c.original_path.1, ⟨c.original_path.2.stem, "jpg"⟩)
          (codec.saveJpg img))
        (c.destination_path, ⟨c.original_path.2.stem, "jpg"⟩) data)
      (c.original_path.1, ⟨c.original_path.2.stem, "jpg"⟩)
      = some (codec.saveJpg img) := by
    rw [lookupFile_writeFile, if_neg hit, lookupFile_writeFile, if_pos rfl]
  have hdd := delete_duplicate_file_ok
    (writeFile
      (writeFile fs (c.original_path.1, ⟨c.original_path.2.stem, "jpg"⟩)
        (codec.saveJpg img))
      (c.destination_path, ⟨c.original_path.2.stem, "jpg"⟩) data)
    (c.original_path.1, ⟨c.original_path.2.stem, "jpg"⟩)
    c.original_path content (codec.saveJpg img)
    hsrc₂ hint₂ (Ne.symm hio) (List.prefix_refl c.original_path.1) rfl hhid
  simp [compress_to_jpg, h1, h2, hext1, hext2, hsrc, hdec, hdec2, henc,
    lookupFile_writeFile, hdd, deleteOriginalStep, hflag, Ne.symm hio]

/-- C9 witness: a concrete decodable png next to nothing else; the run
succeeds and the trace is write-intermediate, write-target,
remove-intermediate. -/
theorem compress_converts_in_source_dir_witness :
    lookupFile [(((["origin"] : DirPath), (⟨"a", "png"⟩ : FName)), 3)]
      (["origin"], ⟨"a", "png"⟩) = some 3 ∧
    oddCodec.decode 3 = some ⟨10, 10, 3⟩ ∧
    compress_to_jpg oddCodec ⟨constCal, (["origin"], ⟨"a", "png"⟩), ["dest"], false⟩
        [((["origin"], ⟨"a", "png"⟩), 3)] =
      (.ok (["dest"], ⟨"a", "jpg"⟩),
       removeFile
         (writeFile
           (writeFile [((["origin"], ⟨"a", "png"⟩), 3)]
             (["origin"], ⟨"a", "jpg"⟩) (oddCodec.saveJpg ⟨10, 10, 3⟩))
           (["dest"], ⟨"a", "jpg"⟩) 1003)
         (["origin"], ⟨"a", "jpg"⟩),
       [.write (["origin"], ⟨"a", "jpg"⟩), .write (["dest"], ⟨"a", "jpg"⟩),
        .remove (["origin"], ⟨"a", "jpg"⟩)]) :=
  ⟨rfl, rfl, compress_converts_in_source_dir oddCodec
    ⟨constCal, (["origin"], ⟨"a", "png"⟩), ["dest"], false⟩
    [((["origin"], ⟨"a", "png"⟩), 3)] 3 ⟨10, 10, 3⟩ ⟨10, 10, 7⟩ 1003
    rfl (by decide) (by decide) rfl rfl rfl rfl rfl rfl (by decide)⟩

/-! ## Claim C7: Factor construction -/

/-- C7: Factor construction succeeds exactly when quality lies in (0,100]
and size_ratio lies in (0,1] (outside these open-below/closed-above ranges
the constructor rejects the input), and a successfully constructed Factor
returns exactly the given quality and size_ratio through its getters. -/
theorem factor_new_spec (q r : ℚ) :
    ((Factor.new q r).isSome ↔ (0 < q ∧ q ≤ 100) ∧ (0 < r ∧ r ≤ 1)) ∧
    ∀ f, Factor.new q r = some f → f.quality = q ∧ f.size_ratio = r := by
  unfold Factor.new
  constructor
  · split <;> simp_all
  · intro f hf
    split at hf
    · cases hf; exact ⟨rfl, rfl⟩
    · cases hf

/-! ## Claim C8: FolderCompressor defaults -/

/-- C8 (amended): a freshly constructed FolderCompressor uses thread count
1, delete-source false and no progress sink, but its default calculator is
default_cal_func, which chooses the factor from the file size; it never
produces the pair (quality 80, ratio 0.8) — quality 80 only ever comes
with ratio 0.9, and a small file gets (85, 1.0). -/
theorem folder_compressor_new_defaults (o d : DirPath) :
    (FolderCompressor.new o d).thread_count = 1 ∧
    (FolderCompressor.new o d).delete_original = false ∧
    (FolderCompressor.new o d).sender = none ∧
    (FolderCompressor.new o d).original_path = o ∧
    (FolderCompressor.new o d).destination_path = d ∧
    (FolderCompressor.new o d).calculate_quality_and_size = default_cal_func ∧
    (∀ w h s, (default_cal_func w h s).quality = 80 →
      (default_cal_func w h s).size_ratio = 9/10) ∧
    ∀ w h s, default_cal_func w h s ≠ ⟨80, 4/5⟩ := by
  refine ⟨rfl, rfl, rfl, rfl, rfl, rfl, ?_, ?_⟩
  · intro w h s
    unfold default_cal_func
    split
    · intro hq; exact absurd hq (by norm_num)
    · split
      · intro hq; exact absurd hq (by norm_num)
      · split
        · intro hq; exact absurd hq (by norm_num)
        · split
          · intro hq; exact absurd hq (by norm_num)
          · split
            · intro _; rfl
            · intro hq; exact absurd hq (by norm_num)
  · intro w h s
    unfold default_cal_func
    split
    · intro hc; cases hc
    · split
      · intro hc; cases hc
      · split
        · intro hc; injection hc with h1 h2; exact absurd h1 (by norm_num)
        · split
          · intro hc; cases hc
          · split
            · intro hc; injection hc with h1 h2; exact absurd h2 (by norm_num)
            · intro hc; cases hc

/-- C8 counterexample: the default calculator of a fresh FolderCompressor,
applied to a small file (file size 0), yields quality 85 and ratio 1.0 —
not the claimed default Factor (quality 80, ratio 0.8). -/
theorem folder_compressor_default_factor_counterexample :
    (FolderCompressor.new [] []).calculate_quality_and_size 100 100 0 = ⟨85, 1⟩ ∧
    (⟨85, 1⟩ : Factor) ≠ (⟨80, 4/5⟩ : Factor) := by
  constructor
  · rfl
  · intro hc; injection hc with h1 h2; exact absurd h1 (by norm_num)

/-! ## Work queue and worker pool (src/lib.rs lines 233-282 and 354-459) -/

/-- A job: one source file path pushed into the SegQueue. -/
abbrev Job := DirPath

/-- One worker thread of the pool: whether its loop is still running, and
the jobs it has popped, in order. -/
structure Worker where
  running : Bool
  processed : List Job

/-- The shared state of one compress run: the queue of pending jobs and
the workers. -/
structure PoolState where
  queue : List Job
  workers : List Worker

/-- The state right after FolderCompressor::compress fills the queue
(src/lib.rs lines 238-241) and spawns thread_count workers (lines
245-265): every crawled file is queued, no worker has popped anything. -/
def initState (jobs : List Job) (thread_count : ℕ) : PoolState :=
  ⟨jobs, List.replicate thread_count ⟨true, []⟩⟩

/-- One scheduler step of the pool (the worker loop, src/lib.rs lines
354-407): a running worker either atomically pops the head job from the
queue (SegQueue::pop returning Some) and processes it, or observes the
queue empty (is_empty, or pop returning None) and leaves its loop.  The
queue never grows: it is filled once before the workers start. -/
inductive PoolStep : PoolState → PoolState → Prop where
  | pop (s : PoolState) (i : ℕ) (hi : i < s.workers.length)
      (hrun : (s.workers.get ⟨i, hi⟩).running = true)
      (j : Job) (rest : List Job) (hq : s.queue = j :: rest) :
      PoolStep s ⟨rest, s.workers.set i
        ⟨true, (s.workers.get ⟨i, hi⟩).processed ++ [j]⟩⟩
  | finish (s : PoolState) (i : ℕ) (hi : i < s.workers.length)
      (hrun : (s.workers.get ⟨i, hi⟩).running = true)
      (hq : s.queue = []) :
      PoolStep s ⟨[], s.workers.set i ⟨false, (s.workers.get ⟨i, hi⟩).processed⟩⟩

/-- Reachability by arbitrarily interleaved worker steps. -/
def PoolReaches : PoolState → PoolState → Prop := Relation.ReflTransGen PoolStep

/-- Every worker has left its loop: the join loop of the orchestrator
(src/lib.rs lines 267-269) completes, and only then does the orchestrator
move on to the cleanup (lines 273-278). -/
def AllDone (s : PoolState) : Prop := ∀ w ∈ s.workers, w.running = false

/-- A complete run of the folder pipeline (compress or
compress_with_sender): the scheduler interleaves the workers arbitrarily
from the initial state, and the orchestrator has joined them all — the
point at which Cleanup is allowed to start. -/
def FolderRun (jobs : List Job) (thread_count : ℕ) (s : PoolState) : Prop :=
  PoolReaches (initState jobs thread_count) s ∧ AllDone s

theorem flatten_map_set_push (ws : List Worker) (i : ℕ) (wold : Worker) (j : Job)
    (hget : ws.get? i = some wold) :
    (((ws.set i ⟨true, wold.processed ++ [j]⟩).map Worker.processed).flatten).Perm
      (j :: (ws.map Worker.processed).flatten) := by
  induction ws generalizing i with
  | nil => simp [List.get?] at hget
  | cons w ws ih =>
      cases i with
      | zero =>
          simp only [List.get?] at hget
          injection hget with hget
          subst hget
          simpa using List.perm_middle.symm
      | succ i' =>
          simp only [List.get?] at hget
          have h := ((ih i' hget).append_left w.processed).trans
            List.perm_middle
          simpa using h

theorem flatten_map_set_same (ws : List Worker) (i : ℕ) (wold : Worker) (b : Bool)
    (hget : ws.get? i = some wold) :
    ((ws.set i ⟨b, wold.processed⟩).map Worker.processed).flatten
      = (ws.map Worker.processed).flatten := by
  induction ws generalizing i with
  | nil => simp [List.get?] at hget
  | cons w ws ih =>
      cases i with
      | zero =>
          simp only [List.get?] at hget
          injection hget with hget
          subst hget
          simp [List.set]
      | succ i' =>
          simp only [List.get?] at hget
          have h1 : ((w :: ws).set (i' + 1) ⟨b, wold.processed⟩).map Worker.processed
              = w.processed :: (ws.set i' ⟨b, wold.processed⟩).map Worker.processed := rfl
          rw [h1, List.map_cons, List.flatten_cons, List.flatten_cons, ih i' hget]

theorem flatten_replicate_empty (n : ℕ) :
    ((List.replicate n (⟨true, []⟩ : Worker)).map Worker.processed).flatten = [] := by
  induction n with
  | zero => simp
  | succ m ihm => simpa [List.replicate] using ihm

/-- The pool invariant: the pending queue and the processed lists together
are a permutation of the initially queued jobs, the worker count never
changes, and as long as the queue is non-empty no worker has finished. -/
abbrev PoolInv (jobs : List Job) (n : ℕ) (s : PoolState) : Prop :=
  (s.queue ++ (s.workers.map Worker.processed).flatten).Perm jobs ∧
  s.workers.length = n ∧
  (s.queue = [] ∨ ∀ w ∈ s.workers, w.running = true)

theorem poolInv_step (jobs : List Job) (n : ℕ) (t u : PoolState)
    (hstep : PoolStep t u) (ih : PoolInv jobs n t) : PoolInv jobs n u := by
  obtain ⟨hperm, hlen, hrunq⟩ := ih
  cases hstep with
  | pop i hi hrun' j rest hq =>
      have hget : t.workers.get? i = some (t.workers.get ⟨i, hi⟩) :=
        List.get?_eq_get hi
      refine ⟨?_, by simpa using hlen, ?_⟩
      · have h1 := flatten_map_set_push t.workers i (t.workers.get ⟨i, hi⟩) j hget
        have h2 := h1.append_left rest
        refine h2.trans ?_
        have h3 : (rest ++ j :: (t.workers.map Worker.processed).flatten).Perm
            ((j :: rest) ++ (t.workers.map Worker.processed).flatten) := by
          simpa using List.perm_middle.symm
        refine h3.trans ?_
        rw [← hq]
        exact hperm
      · cases rest with
        | nil => exact Or.inl rfl
        | cons r rs =>
            right
            intro w hw
            rcases List.mem_or_eq_of_mem_set hw with hmem | heq
            · rcases hrunq with hq0 | hall
              · rw [hq0] at hq; cases hq
              · exact hall w hmem
            · rw [heq]
  | finish i hi hrun' hq =>
      have hget : t.workers.get? i = some (t.workers.get ⟨i, hi⟩) :=
        List.get?_eq_get hi
      refine ⟨?_, by simpa using hlen, Or.inl rfl⟩
      rw [flatten_map_set_same t.workers i (t.workers.get ⟨i, hi⟩) false hget]
      simpa [hq] using hperm

theorem pool_invariant (jobs : List Job) (n : ℕ) (s : PoolState)
    (h : PoolReaches (initState jobs n) s) : PoolInv jobs n s := by
  induction h with
  | refl =>
      refine ⟨?_, by simp [initState], Or.inr ?_⟩
      · simp [initState, flatten_replicate_empty]
      · intro w hw
        simp only [initState] at hw
        rw [List.eq_of_mem_replicate hw]
  | tail hsteps hstep ih => exact poolInv_step jobs n _ _ hstep ih

/-- C1 (amended): in every complete run of the folder pipeline with at
least one worker, the queue is fully drained before the orchestrator
proceeds to Cleanup, the multiset of jobs processed across workers is
exactly the multiset of queued jobs (so, with distinct paths, every job is
processed exactly once and none is skipped), and no two workers processed
a common job.  With thread_count 0 — accepted by set_thread_count — the
queue is never drained (see the counterexample). -/
theorem folder_pipeline_exactly_once (jobs : List Job) (n : ℕ) (s : PoolState)
    (hn : 1 ≤ n) (hnodup : jobs.Nodup) (hrun : FolderRun jobs n s) :
    s.queue = [] ∧
    ((s.workers.map Worker.processed).flatten).Perm jobs ∧
    List.Pairwise List.Disjoint (s.workers.map Worker.processed) := by
  obtain ⟨hreach, hdone⟩ := hrun
  obtain ⟨hperm, hlen, hq⟩ := pool_invariant jobs n s hreach
  have hqe : s.queue = [] := by
    rcases hq with hq | hall
    · exact hq
    · cases hw : s.workers with
      | nil =>
          rw [hw] at hlen
          simp only [List.length_nil] at hlen
          omega
      | cons w ws =>
          have h1 := hall w (by rw [hw]; exact List.mem_cons_self w ws)
          have h2 := hdone w (by rw [hw]; exact List.mem_cons_self w ws)
          rw [h1] at h2
          exact Bool.noConfusion h2
  rw [hqe] at hperm
  simp only [List.nil_append] at hperm
  have hjnodup : ((s.workers.map Worker.processed).flatten).Nodup :=
    hperm.symm.nodup hnodup
  exact ⟨hqe, hperm, (List.nodup_flatten.mp hjnodup).2⟩

/-- C1 witness: two distinct jobs, one worker; the explicit schedule pops
both and finishes, and the conclusions hold at the final state. -/
theorem folder_pipeline_exactly_once_witness :
    1 ≤ 1 ∧ ([["r", "a.png"], ["r", "b.jpg"]] : List Job).Nodup ∧
    FolderRun [["r", "a.png"], ["r", "b.jpg"]] 1
      ⟨[], [⟨false, [["r", "a.png"], ["r", "b.jpg"]]⟩]⟩ ∧
    ((⟨[], [⟨false, [["r", "a.png"], ["r", "b.jpg"]]⟩]⟩ : PoolState).queue = [] ∧
     (((⟨[], [⟨false, [["r", "a.png"], ["r", "b.jpg"]]⟩]⟩ : PoolState).workers.map
        Worker.processed).flatten).Perm [["r", "a.png"], ["r", "b.jpg"]] ∧
     List.Pairwise List.Disjoint
       ((⟨[], [⟨false, [["r", "a.png"], ["r", "b.jpg"]]⟩]⟩ : PoolState).workers.map
         Worker.processed)) := by
  have hrun : FolderRun [["r", "a.png"], ["r", "b.jpg"]] 1
      ⟨[], [⟨false, [["r", "a.png"], ["r", "b.jpg"]]⟩]⟩ := by
    constructor
    · exact Relation.ReflTransGen.head
        (PoolStep.pop (initState [["r", "a.png"], ["r", "b.jpg"]] 1) 0
          (by decide) rfl ["r", "a.png"] [["r", "b.jpg"]] rfl)
        (Relation.ReflTransGen.head
          (PoolStep.pop ⟨[["r", "b.jpg"]], [⟨true, [["r", "a.png"]]⟩]⟩ 0
            (by decide) rfl ["r", "b.jpg"] [] rfl)
          (Relation.ReflTransGen.single
            (PoolStep.finish
              ⟨[], [⟨true, [["r", "a.png"], ["r", "b.jpg"]]⟩]⟩ 0
              (by decide) rfl rfl)))
    · intro w hw
      rw [List.mem_singleton.mp hw]
  exact ⟨Nat.le_refl 1, by decide,
    hrun, folder_pipeline_exactly_once _ 1 _ (Nat.le_refl 1) (by decide) hrun⟩

/-- C1 counterexample: with thread_count 0 (which set_thread_count
accepts), the initial state is already a complete run — no worker exists,
so the join loop is trivial and the orchestrator proceeds to Cleanup —
yet the queued job was never popped and the queue is not drained,
refuting "every file path pushed into the work queue is popped and
processed by exactly one worker, none is skipped". -/
theorem folder_pipeline_counterexample :
    FolderRun [["origin", "a.png"]] 0 ⟨[["origin", "a.png"]], []⟩ ∧
    (⟨[["origin", "a.png"]], []⟩ : PoolState).queue ≠ [] ∧
    ((⟨[["origin", "a.png"]], []⟩ : PoolState).workers.map
      Worker.processed).flatten = [] := by
  refine ⟨⟨Relation.ReflTransGen.refl, ?_⟩, by simp, by simp⟩
  intro w hw
  cases hw

end ImageCompressor
